import Mathlib

/-!
# Verification of the memory-architecture knowledge stores

A shallow embedding of `rl_memory.py`: the `NetworkXKB` graph-backed
knowledge store, the `NaiveDictKB` linear-scan store, and the
buffer/action-generation layer of the memory-architecture meta-environment,
together with theorems settling the specification claims about them.

Modelling conventions:
* node identifiers, attribute names and attribute values are all `ℕ`
  (Python uses arbitrary hashables; the claims are insensitive to this);
* a materialized record (Python `TreeMultiMap`) is a list of
  (attribute, value) pairs held in a canonical key-sorted order.  The
  `TreeMultiMap` class itself is not part of the sources; modelled from the
  spec: a deterministic canonical ordering over record contents
  (lexicographic on the pair list), content-based equality;
* the pluggable `activation_fn(graph, mem_id, activation)` is modelled by
  its effect on the touched node's activation history,
  `ActFn : List Snapshot → Snapshot → List Snapshot` (the default 2-ary
  lambda of the source would raise `TypeError` when invoked with 3
  arguments; every working activation function, e.g. the one in `test.py`,
  rewrites only `graph.nodes[mem_id]['activation']`);
* Python `float` rounding `round(x, 2)` is modelled by exact
  half-to-even rounding on `ℚ`; binary floating-point representation error
  is not modelled (no claim depends on a rounding borderline);
* the iteration order of the Python `set` of query candidates is
  unspecified, so `NetworkXKB.query` takes the enumeration `order` of the
  surviving candidate set as an explicit argument, constrained by
  `candsOK` to be a permutation of the candidate set.
-/

/-- An activation snapshot `(time, activation_value)` as recorded by the
store (Python records tuples/lists `[self.getTime(), self.getActivation()]`). -/
abbrev Snapshot : Type := ℕ × ℚ

/-- Strict lexicographic comparison of two snapshots, as Python compares
the 2-element tuples/lists. -/
def snapLT (p q : Snapshot) : Bool :=
  decide (p.1 < q.1) || (decide (p.1 = q.1) && decide (p.2 < q.2))

/-- Lexicographic `≤` on activation histories: Python's list comparison,
used (descending) as the sort key of `NetworkXKB.query`. -/
def keyLE : List Snapshot → List Snapshot → Bool
  | [], _ => true
  | _ :: _, [] => false
  | p :: ps, q :: qs => if p = q then keyLE ps qs else snapLT p q

/-- Strict lexicographic comparison of two (attribute, value) pairs. -/
def pairLT (p q : ℕ × ℕ) : Bool :=
  decide (p.1 < q.1) || (decide (p.1 = q.1) && decide (p.2 < q.2))

/-- Non-strict pair comparison used for the canonical key order inside a
record. -/
def pairLE (p q : ℕ × ℕ) : Bool := pairLT p q || decide (p = q)

/-- A materialized memory record: (attribute, value) pairs. -/
abbrev Rec : Type := List (ℕ × ℕ)

/-- Lexicographic `≤` on whole records.  Modelled from the spec: the naive
store sorts matches "by a canonical ordering (deterministic, defined over
record contents)"; the `TreeMultiMap` comparison itself is not in the
sources. -/
def recLE : Rec → Rec → Bool
  | [], _ => true
  | _ :: _, [] => false
  | p :: ps, q :: qs => if p = q then recLE ps qs else pairLT p q

/-- Build a record from (attribute, value) pairs: `TreeMultiMap` holds its
entries in key order.  Modelled from the spec (ordered multimap). -/
def mkRec (pairs : List (ℕ × ℕ)) : Rec :=
  List.insertionSort (fun p q => pairLE p q = true) pairs

/-- First value bound to attribute `a` in record `r`
(`TreeMultiMap.__getitem__` / `dict.get`). -/
def lookupRec (r : Rec) (a : ℕ) : Option ℕ :=
  (r.find? (fun p => p.1 == a)).map (·.2)

/- ### The graph store (`NetworkXKB`) -/

/-- The `networkx.MultiDiGraph` as the store uses it: node list in insertion
order, per-node activation history (the `activation` node attribute), and
the edge list `(src, dst, attribute)` in insertion order — parallel edges
between the same endpoints are kept, and the edge inserted first is the one
with key `0`. -/
structure NXGraph where
  nodes : List ℕ
  act : List (ℕ × List Snapshot)
  edges : List (ℕ × ℕ × ℕ)
deriving DecidableEq

/-- The empty graph (`MultiDiGraph()` / `graph.clear()`). -/
def NXGraph.empty : NXGraph := ⟨[], [], []⟩

/-- `graph.add_node(n, activation=hist)`. -/
def NXGraph.addNode (g : NXGraph) (n : ℕ) (hist : List Snapshot) : NXGraph :=
  ⟨g.nodes ++ [n], g.act ++ [(n, hist)], g.edges⟩

/-- `graph.add_edge(u, v, attribute=a)` — always appends a fresh parallel
edge. -/
def NXGraph.addEdge (g : NXGraph) (u v a : ℕ) : NXGraph :=
  { g with edges := g.edges ++ [(u, v, a)] }

/-- `graph.nodes[n]['activation']` (empty history if the node is absent;
the store only reads histories of present nodes). -/
def NXGraph.actHist (g : NXGraph) (n : ℕ) : List Snapshot :=
  ((g.act.find? (fun p => p.1 == n)).map (·.2)).getD []

/-- Apply an update to node `n`'s activation history — the effect of calling
the pluggable `activation_fn(graph, n, snapshot)`. -/
def NXGraph.updAct (g : NXGraph) (f : List Snapshot → List Snapshot) (n : ℕ) : NXGraph :=
  { g with act := g.act.map (fun p => if p.1 == n then (p.1, f p.2) else p) }

/-- `(attribute, value)` pairs of all outgoing edges of `n`
(`graph.out_edges(n, data=True)`). -/
def NXGraph.outPairs (g : NXGraph) (n : ℕ) : List (ℕ × ℕ) :=
  (g.edges.filter (fun e => e.1 == n)).map (fun e => (e.2.2, e.2.1))

/-- `(u, v) in graph.edges` — some edge from `u` to `v` exists. -/
def NXGraph.hasEdgePair (g : NXGraph) (u v : ℕ) : Bool :=
  g.edges.any (fun e => e.1 == u && e.2.1 == v)

/-- `graph.get_edge_data(u, v)[0]['attribute']` — the label of the edge with
key `0`, i.e. the parallel edge from `u` to `v` that was inserted first. -/
def NXGraph.firstEdgeAttr (g : NXGraph) (u v : ℕ) : Option ℕ :=
  ((g.edges.filter (fun e => e.1 == u && e.2.1 == v)).head?).map (fun e => e.2.2)

/-- The effect of the pluggable `activation_fn` on the accessed node's
activation history. -/
abbrev ActFn : Type := List Snapshot → Snapshot → List Snapshot

/-- A no-op activation function (`lambda graph, mem_id, activation: None`,
the working form of the source's intended default). -/
def noopFn : ActFn := fun h _ => h

/-- The activation function of `test.py`:
`graph.nodes[mem_id]['activation'].append(activation)`. -/
def appendFn : ActFn := fun h snap => h ++ [snap]

/-- Round half to even (Python's `round` on an exactly representable
value). -/
def bankersRound (x : ℚ) : ℤ :=
  let n : ℤ := ⌊x⌋
  let r : ℚ := x - (n : ℚ)
  if r < 1/2 then n
  else if 1/2 < r then n + 1
  else if n % 2 = 0 then n else n + 1

/-- Python `round(x, 2)`. -/
def round2 (x : ℚ) : ℚ := ((bankersRound (100 * x) : ℤ) : ℚ) / 100

/-- `NetworkXKB.getActivation`: `1` at time zero, else `round(1 / time, 2)`. -/
def getActivation (t : ℕ) : ℚ :=
  if t = 0 then 1 else round2 (1 / (t : ℚ))

/-- State of the `NetworkXKB` knowledge store. -/
structure NetworkXKB where
  graph : NXGraph
  inverted_index : List (ℕ × ℕ)
  query_results : Option (List ℕ)
  result_index : Option ℕ
  time : ℕ
deriving DecidableEq

/-- The state right after `NetworkXKB.__init__` (with `time = 0`). -/
def NetworkXKB.init : NetworkXKB := ⟨NXGraph.empty, [], none, none, 0⟩

/-- `NetworkXKB.clear`: wipes the graph, the inverted index and the cursor;
`self.time` is left untouched. -/
def NetworkXKB.clear (s : NetworkXKB) : NetworkXKB :=
  { s with graph := NXGraph.empty, inverted_index := [],
           query_results := none, result_index := none }

/-- `self.inverted_index[attribute].add(mem_id)` — set insertion, modelled
as an append-if-absent on the pair list. -/
def invInsert (idx : List (ℕ × ℕ)) (a m : ℕ) : List (ℕ × ℕ) :=
  if (a, m) ∈ idx then idx else idx ++ [(a, m)]

/-- One iteration of the attribute loop of `NetworkXKB.store`: create the
value node if absent, add the labeled edge, update the inverted index.
`snap` is the snapshot taken at the call's entry time. -/
def storeStep (mem : ℕ) (snap : Snapshot) (gi : NXGraph × List (ℕ × ℕ))
    (av : ℕ × ℕ) : NXGraph × List (ℕ × ℕ) :=
  let g := gi.1
  let g' := if av.2 ∈ g.nodes then g else g.addNode av.2 [snap]
  (g'.addEdge mem av.2 av.1, invInsert gi.2 av.1 mem)

/-- `NetworkXKB.store(mem_id, **kwargs)` with an explicit `mem_id` (the
claims never exercise the `uuid()` default).  Creates or reinforces the
identifier node, adds value nodes and labeled edges, updates the inverted
index, and advances the clock by one at the end (`self.pass_time()`). -/
def NetworkXKB.store (actFn : ActFn) (s : NetworkXKB) (mem : ℕ)
    (attrs : List (ℕ × ℕ)) : NetworkXKB :=
  let snap : Snapshot := (s.time, getActivation s.time)
  let g0 := if mem ∈ s.graph.nodes
    then s.graph.updAct (fun h => actFn h snap) mem
    else s.graph.addNode mem [snap]
  let gi := attrs.foldl (storeStep mem snap) (g0, s.inverted_index)
  { s with graph := gi.1, inverted_index := gi.2, time := s.time + 1 }

/-- `NetworkXKB.retrieve(mem_id)`: `None` on an unknown identifier;
otherwise advance the clock, reinforce the node via the activation function
and materialize the record from its outgoing edges.  The query cursor
fields are not touched. -/
def NetworkXKB.retrieve (actFn : ActFn) (s : NetworkXKB) (mem : ℕ) :
    Option Rec × NetworkXKB :=
  if mem ∈ s.graph.nodes then
    let t := s.time + 1
    let g := s.graph.updAct (fun h => actFn h (t, getActivation t)) mem
    (some (mkRec (g.outPairs mem)), { s with graph := g, time := t })
  else (none, s)

/-- The two-phase candidate predicate of `NetworkXKB.query`: membership in
every queried attribute's inverted-index set, then, for every
(attribute, value) term, existence of an edge to the value node whose
key-`0` parallel edge carries the queried label. -/
def candPred (s : NetworkXKB) (attrs : List (ℕ × ℕ)) (c : ℕ) : Bool :=
  attrs.all (fun av => decide ((av.1, c) ∈ s.inverted_index)) &&
  attrs.all (fun av =>
    s.graph.hasEdgePair c av.2 && (s.graph.firstEdgeAttr c av.2 == some av.1))

/-- A canonical enumeration of the surviving candidate set. -/
def candList (s : NetworkXKB) (attrs : List (ℕ × ℕ)) : List ℕ :=
  s.graph.nodes.filter (candPred s attrs)

/-- `order` is a legitimate iteration order of the Python candidate set:
some permutation of it. -/
def candsOK (s : NetworkXKB) (attrs : List (ℕ × ℕ)) (order : List ℕ) : Prop :=
  order.Perm (candList s attrs)

instance (s : NetworkXKB) (attrs : List (ℕ × ℕ)) (order : List ℕ) :
    Decidable (candsOK s attrs order) := by
  unfold candsOK
  exact List.decidablePerm order (candList s attrs)

/-- The ranking relation of `NetworkXKB.query`:
`sorted(candidates, key=activation-history, reverse=True)` — descending
lexicographic comparison of activation histories; a stable sort under this
relation reproduces Python's tie behavior (ties keep enumeration order). -/
def rankRel (g : NXGraph) (a b : ℕ) : Prop :=
  keyLE (g.actHist b) (g.actHist a) = true

instance (g : NXGraph) : DecidableRel (rankRel g) := fun _ _ => decEq _ _

/-- `NetworkXKB.query(attr_vals)`, with the candidate-set iteration order
passed explicitly (see `candsOK`).  Empty candidate set: cursor cleared,
`None`.  Otherwise: sort descending by activation, set the cursor to the
top, advance the clock once, reinforce and materialize the top match. -/
def NetworkXKB.query (actFn : ActFn) (s : NetworkXKB) (attrs : List (ℕ × ℕ))
    (order : List ℕ) : Option Rec × NetworkXKB :=
  if order.isEmpty then
    (none, { s with query_results := none, result_index := none })
  else
    let sortedR := List.insertionSort (rankRel s.graph) order
    let t := s.time + 1
    match sortedR.head? with
    | none => (none, { s with query_results := none, result_index := none })
    | some node =>
      let g := s.graph.updAct (fun h => actFn h (t, getActivation t)) node
      (some (mkRec (g.outPairs node)),
       { s with graph := g, query_results := some sortedR,
                result_index := some 0, time := t })

/-- `NetworkXKB.has_prev_result`:
`query_results is not None and result_index > 0`. -/
def NetworkXKB.has_prev_result (s : NetworkXKB) : Bool :=
  match s.query_results, s.result_index with
  | some _, some i => decide (0 < i)
  | _, _ => false

/-- `NetworkXKB.has_next_result`:
`query_results is not None and result_index < len(query_results) - 1`. -/
def NetworkXKB.has_next_result (s : NetworkXKB) : Bool :=
  match s.query_results, s.result_index with
  | some l, some i => decide (i + 1 < l.length)
  | _, _ => false

/-- `NetworkXKB.next_result`: increment the index and reinforce/materialize
the newly current node (no clock advance).  Python raises out of bounds;
modelled as a `none` result there — the claims only exercise it under
`has_next_result`. -/
def NetworkXKB.next_result (actFn : ActFn) (s : NetworkXKB) :
    Option Rec × NetworkXKB :=
  match s.query_results, s.result_index with
  | some l, some i =>
    let j := i + 1
    (match l.get? j with
     | some node =>
       let g := s.graph.updAct (fun h => actFn h (s.time, getActivation s.time)) node
       (some (mkRec (g.outPairs node)), { s with graph := g, result_index := some j })
     | none => (none, { s with result_index := some j }))
  | _, _ => (none, s)

/-- `NetworkXKB.prev_result`: decrement the index (Python would index `-1`,
i.e. the last element, when called at index `0`; the claims only exercise
it under `has_prev_result`, where `0 < i`). -/
def NetworkXKB.prev_result (actFn : ActFn) (s : NetworkXKB) :
    Option Rec × NetworkXKB :=
  match s.query_results, s.result_index with
  | some l, some i =>
    let j := i - 1
    (match l.get? j with
     | some node =>
       let g := s.graph.updAct (fun h => actFn h (s.time, getActivation s.time)) node
       (some (mkRec (g.outPairs node)), { s with graph := g, result_index := some j })
     | none => (none, { s with result_index := some j }))
  | _, _ => (none, s)

/- ### The naive store (`NaiveDictKB`) -/

/-- State of the `NaiveDictKB` knowledge store. -/
structure NaiveDictKB where
  knowledge : List Rec
  query_index : Option ℕ
  query_matches : List Rec
deriving DecidableEq

/-- `NaiveDictKB.__init__` / `clear`. -/
def NaiveDictKB.init : NaiveDictKB := ⟨[], none, []⟩

/-- `NaiveDictKB.store(mem_id, **kwargs)`:
`self.knowledge.append(TreeMultiMap(**kwargs))` — the `mem_id` argument is
ignored. -/
def NaiveDictKB.store (s : NaiveDictKB) (memId : Option ℕ)
    (attrs : List (ℕ × ℕ)) : NaiveDictKB :=
  { s with knowledge := s.knowledge ++ [mkRec attrs] }

/-- `attr in candidate and candidate[attr] == val`, for every query term. -/
def recMatch (attrs : List (ℕ × ℕ)) (r : Rec) : Bool :=
  attrs.all (fun av => lookupRec r av.1 == some av.2)

/-- The canonical sort relation on records used by `sorted(candidates)`. -/
def recRel (r1 r2 : Rec) : Prop := recLE r1 r2 = true

instance : DecidableRel recRel := fun _ _ => decEq _ _

/-- `NaiveDictKB.query(attr_vals)`: linear scan keeping exact matches; on a
non-empty match set, sort canonically and re-center the cursor on the
previously selected record if it still occurs (first occurrence by record
equality, `list.index`), else reset the cursor to `0`; on an empty match
set, clear the cursor and return `None`. -/
def NaiveDictKB.query (s : NaiveDictKB) (attrs : List (ℕ × ℕ)) :
    Option Rec × NaiveDictKB :=
  let cands := s.knowledge.filter (recMatch attrs)
  if cands.isEmpty then
    (none, { s with query_index := none, query_matches := [] })
  else
    let curr : Option Rec :=
      match s.query_index with
      | some i => s.query_matches.get? i
      | none => none
    let sortedM := List.insertionSort recRel cands
    let idx : ℕ :=
      match curr with
      | some r => if r ∈ sortedM then sortedM.indexOf r else 0
      | none => 0
    (sortedM.get? idx, { s with query_matches := sortedM, query_index := some idx })

/-- `NaiveDictKB.has_prev_result`: constantly `True`. -/
def NaiveDictKB.has_prev_result (_ : NaiveDictKB) : Bool := true

/-- `NaiveDictKB.has_next_result`: constantly `True`. -/
def NaiveDictKB.has_next_result (_ : NaiveDictKB) : Bool := true

/-- `NaiveDictKB.next_result`: cyclic move,
`query_index = (query_index + 1) % len(query_matches)`. -/
def NaiveDictKB.next_result (s : NaiveDictKB) : Option Rec × NaiveDictKB :=
  match s.query_index with
  | some i =>
    let j := (i + 1) % s.query_matches.length
    (s.query_matches.get? j, { s with query_index := some j })
  | none => (none, s)

/-- `NaiveDictKB.prev_result`: cyclic move,
`query_index = (query_index - 1) % len(query_matches)` (Python's modulo of
a negative wraps to the end). -/
def NaiveDictKB.prev_result (s : NaiveDictKB) : Option Rec × NaiveDictKB :=
  match s.query_index with
  | some i =>
    let j := (i + s.query_matches.length - 1) % s.query_matches.length
    (s.query_matches.get? j, { s with query_index := some j })
  | none => (none, s)

/-- Iterate `next_result` (discarding the returned records). -/
def ndNextIter (s : NaiveDictKB) : ℕ → NaiveDictKB
  | 0 => s
  | k + 1 => (NaiveDictKB.next_result (ndNextIter s k)).2

/- ### Buffers and copy-action generation (memory architecture) -/

/-- The four buffers, in `BUFFERS` declaration order. -/
inductive BufName
  | perceptual
  | query
  | retrieval
  | scratch
deriving DecidableEq

/-- The iteration order of `BUFFERS.items()`. -/
def bufList : List BufName :=
  [BufName.perceptual, BufName.query, BufName.retrieval, BufName.scratch]

/-- The `copyable` capability flag per buffer. -/
def copyable : BufName → Bool
  | BufName.perceptual => true
  | BufName.query => false
  | BufName.retrieval => true
  | BufName.scratch => true

/-- The `writable` capability flag per buffer. -/
def writable : BufName → Bool
  | BufName.perceptual => false
  | BufName.query => true
  | BufName.retrieval => false
  | BufName.scratch => true

/-- The buffer set of the meta-environment (ignored buffers are modelled as
empty; their contents are never read by the generators, which skip them). -/
structure Bufs where
  perceptual : List (ℕ × ℕ)
  query : List (ℕ × ℕ)
  retrieval : List (ℕ × ℕ)
  scratch : List (ℕ × ℕ)
deriving DecidableEq

/-- `self.buffers[name]`. -/
def Bufs.get (bs : Bufs) : BufName → List (ℕ × ℕ)
  | BufName.perceptual => bs.perceptual
  | BufName.query => bs.query
  | BufName.retrieval => bs.retrieval
  | BufName.scratch => bs.scratch

/-- All buffers freshly cleared (`_clear_buffers`). -/
def Bufs.empty : Bufs := ⟨[], [], [], []⟩

/-- A generated internal copy action (`src_attr` always equals `dst_attr`
in the generator, so one `attr` field suffices). -/
structure CopyAction where
  src_buf : BufName
  attr : ℕ
  dst_buf : BufName
deriving DecidableEq

/-- The `copyable` condition of `_generate_copy_actions`. -/
def copyOK (ignore : List BufName) (bs : Bufs) (src dst : BufName) (a : ℕ) : Bool :=
  decide (src ≠ dst) && decide (dst ∉ ignore) && writable dst &&
  !(decide (src = BufName.perceptual) && decide (dst = BufName.scratch)) &&
  (lookupRec (bs.get src) a != lookupRec (bs.get dst) a)

/-- `MemoryArchitectureMetaEnvironment._generate_copy_actions`. -/
def generateCopyActions (ignore : List BufName) (bs : Bufs) : List CopyAction :=
  (bufList.filter (fun b => decide (b ∉ ignore) && copyable b)).flatMap (fun src =>
    ((bs.get src).map Prod.fst).flatMap (fun a =>
      (bufList.filter (fun dst => copyOK ignore bs src dst a)).map
        (fun dst => ⟨src, a, dst⟩)))

/-- The memory-architecture meta-environment's mutable state, over an
abstract wrapped environment `E` and knowledge store `K` (the lifecycle
methods touch neither beyond delegation). -/
structure MemoryArch (E K : Type) where
  env : E
  bufs : Bufs
  internal_action_count : ℕ
  knowledge_store : K

/-- `MemoryArchitectureMetaEnvironment.reset`: `super().reset()` then
`_clear_buffers()` — nothing else. -/
def MemoryArch.reset {E K : Type} (envReset : E → E) (c : MemoryArch E K) :
    MemoryArch E K :=
  { env := envReset c.env, bufs := Bufs.empty,
    internal_action_count := c.internal_action_count,
    knowledge_store := c.knowledge_store }

/-- `MemoryArchitectureMetaEnvironment.start_new_episode`:
`super().start_new_episode()`, `_clear_buffers()`,
`_sync_input_buffers()` (perceptual := wrapped observation), and the
internal-action counter zeroed. -/
def MemoryArch.start_new_episode {E K : Type} (envStart : E → E)
    (obs : E → List (ℕ × ℕ)) (c : MemoryArch E K) : MemoryArch E K :=
  let e := envStart c.env
  { env := e, bufs := { Bufs.empty with perceptual := obs e },
    internal_action_count := 0, knowledge_store := c.knowledge_store }

/- ### Concrete states used by counterexamples and witnesses -/

/-- Store `100` with attribute `0` pointing to value `5`. -/
def nxS1 : NetworkXKB := NetworkXKB.store appendFn NetworkXKB.init 100 [(0, 5)]

/-- Reinforce `100` with a second attribute `1` pointing to the same value
`5`: two parallel edges `100 → 5`, labels `0` (key 0) and `1` (key 1). -/
def nxS2 : NetworkXKB := NetworkXKB.store appendFn nxS1 100 [(1, 5)]

/-- Two memories `1` and `2`, both with attribute `0` = value `7`. -/
def nxT1 : NetworkXKB := NetworkXKB.store appendFn NetworkXKB.init 1 [(0, 7)]

/-- Second store on top of `nxT1`. -/
def nxT2 : NetworkXKB := NetworkXKB.store appendFn nxT1 2 [(0, 7)]

/-- State after `query({0: 7})` on `nxT2`: matches `[2, 1]` (node `2` has
the higher activation), cursor at index `0`. -/
def nxT3 : NetworkXKB := (NetworkXKB.query appendFn nxT2 [(0, 7)] [1, 2]).2

/-- Value nodes `10` and `11` are created in the same `store` call, hence
with identical activation histories. -/
def nxU1 : NetworkXKB := NetworkXKB.store noopFn NetworkXKB.init 1 [(5, 10), (6, 11)]

/-- Turn value node `10` into a memory with attribute `7` = `12` and a
distinguishing attribute `8` = `20` (no-op activation function keeps its
history equal to node `11`'s). -/
def nxU2 : NetworkXKB := NetworkXKB.store noopFn nxU1 10 [(7, 12), (8, 20)]

/-- Turn value node `11` into a memory with attribute `7` = `12` and a
distinguishing attribute `8` = `21`. -/
def nxU3 : NetworkXKB := NetworkXKB.store noopFn nxU2 11 [(7, 12), (8, 21)]

/-- A record with attribute `0` = `1` and `1` = `5`. -/
def recA : Rec := [(0, 1), (1, 5)]

/-- A record with attribute `0` = `1` and `1` = `6`. -/
def recB : Rec := [(0, 1), (1, 6)]

/-- A naive store holding `recB` and `recA`, whose cursor currently selects
`recB` (match list from an earlier, narrower query). -/
def ndS1 : NaiveDictKB := ⟨[recB, recA], some 0, [recB]⟩

/-- A naive store with a single match under the cursor. -/
def ndS2 : NaiveDictKB := (NaiveDictKB.query ⟨[recA], none, []⟩ [(0, 1)]).2

/-- A naive store with three matches, cursor at index `1`. -/
def ndS3 : NaiveDictKB := ⟨[recA, recB, [(2, 2)]], some 1, [recA, recB, [(2, 2)]]⟩

/- ### Order-theoretic facts about the comparators -/

lemma snapLT_iff {p q : Snapshot} :
    snapLT p q = true ↔ (p.1 < q.1 ∨ (p.1 = q.1 ∧ p.2 < q.2)) := by
  simp [snapLT]

lemma snapLT_asymm {p q : Snapshot} (h1 : snapLT p q = true)
    (h2 : snapLT q p = true) : False := by
  rw [snapLT_iff] at h1 h2
  rcases h1 with h1 | ⟨h1e, h1l⟩ <;> rcases h2 with h2 | ⟨h2e, h2l⟩
  · omega
  · omega
  · omega
  · exact absurd (h1l.trans h2l) (lt_irrefl _)

lemma snapLT_or {p q : Snapshot} (h : p ≠ q) :
    snapLT p q = true ∨ snapLT q p = true := by
  rw [snapLT_iff, snapLT_iff]
  rcases lt_trichotomy p.1 q.1 with h1 | h1 | h1
  · exact Or.inl (Or.inl h1)
  · rcases lt_trichotomy p.2 q.2 with h2 | h2 | h2
    · exact Or.inl (Or.inr ⟨h1, h2⟩)
    · exact absurd (Prod.ext h1 h2) h
    · exact Or.inr (Or.inr ⟨h1.symm, h2⟩)
  · exact Or.inr (Or.inl h1)

lemma snapLT_trans {p q r : Snapshot} (h1 : snapLT p q = true)
    (h2 : snapLT q r = true) : snapLT p r = true := by
  rw [snapLT_iff] at h1 h2 ⊢
  rcases h1 with h1 | ⟨h1e, h1l⟩ <;> rcases h2 with h2 | ⟨h2e, h2l⟩
  · exact Or.inl (h1.trans h2)
  · exact Or.inl (h2e ▸ h1)
  · exact Or.inl (h1e ▸ h2)
  · exact Or.inr ⟨h1e.trans h2e, h1l.trans h2l⟩

lemma keyLE_total : ∀ x y : List Snapshot, keyLE x y = true ∨ keyLE y x = true
  | [], _ => Or.inl rfl
  | _ :: _, [] => Or.inr rfl
  | p :: ps, q :: qs => by
    by_cases h : p = q
    · subst h
      simpa [keyLE] using keyLE_total ps qs
    · simp only [keyLE, if_neg h, if_neg (Ne.symm h)]
      exact snapLT_or h

lemma keyLE_antisymm : ∀ {x y : List Snapshot},
    keyLE x y = true → keyLE y x = true → x = y
  | [], [], _, _ => rfl
  | [], _ :: _, _, h2 => by simp [keyLE] at h2
  | _ :: _, [], h1, _ => by simp [keyLE] at h1
  | p :: ps, q :: qs, h1, h2 => by
    by_cases h : p = q
    · subst h
      simp only [keyLE, if_pos rfl] at h1 h2
      rw [keyLE_antisymm h1 h2]
    · simp only [keyLE, if_neg h, if_neg (Ne.symm h)] at h1 h2
      exact absurd h1 (fun hx => snapLT_asymm hx h2)

lemma keyLE_trans : ∀ {x y z : List Snapshot},
    keyLE x y = true → keyLE y z = true → keyLE x z = true
  | [], _, _, _, _ => rfl
  | _ :: _, [], _, h1, _ => by simp [keyLE] at h1
  | _ :: _, _ :: _, [], _, h2 => by simp [keyLE] at h2
  | p :: ps, q :: qs, r :: rs, h1, h2 => by
    by_cases hpq : p = q <;> by_cases hqr : q = r
    · subst hpq; subst hqr
      simp only [keyLE, if_pos rfl] at h1 h2 ⊢
      exact keyLE_trans h1 h2
    · subst hpq
      simp only [keyLE, if_neg hqr] at h2 ⊢
      exact h2
    · subst hqr
      simp only [keyLE, if_neg hpq] at h1 ⊢
      exact h1
    · simp only [keyLE, if_neg hpq, if_neg hqr] at h1 h2
      have hpr : p ≠ r := by
        rintro rfl
        exact snapLT_asymm h1 h2
      simp only [keyLE, if_neg hpr]
      exact snapLT_trans h1 h2

instance (g : NXGraph) : IsTotal ℕ (rankRel g) :=
  ⟨fun a b => by unfold rankRel; exact (keyLE_total (g.actHist a) (g.actHist b)).symm⟩

instance (g : NXGraph) : IsTrans ℕ (rankRel g) :=
  ⟨fun a b c h1 h2 => by unfold rankRel at h1 h2 ⊢; exact keyLE_trans h2 h1⟩

/-- Two sorted permutations of the same candidate multiset coincide when
their activation keys are pairwise distinct. -/
lemma sorted_perm_eq_of_nodup_keys (g : NXGraph) :
    ∀ (l1 l2 : List ℕ), l1.Perm l2 → l1.Sorted (rankRel g) →
      l2.Sorted (rankRel g) → (l1.map g.actHist).Nodup → l1 = l2
  | [], l2, hp, _, _, _ => hp.nil_eq
  | a :: t1, [], hp, _, _, _ => by simpa using hp.length_eq
  | a :: t1, b :: t2, hp, hs1, hs2, hn => by
    have hab : a = b := by
      by_contra hne
      have ha2 : a ∈ t2 := by
        have := hp.subset (List.mem_cons_self a t1)
        simpa [hne] using this
      have hb1 : b ∈ t1 := by
        have hm := hp.symm.subset (List.mem_cons_self b t2)
        rcases List.mem_cons.mp hm with h | h
        · exact absurd h.symm hne
        · exact h
      have hrba : rankRel g b a := List.rel_of_sorted_cons hs2 a ha2
      have hrab : rankRel g a b := List.rel_of_sorted_cons hs1 b hb1
      have hkey : g.actHist a = g.actHist b := keyLE_antisymm hrba hrab
      have : g.actHist b ∈ t1.map g.actHist := List.mem_map_of_mem _ hb1
      rw [← hkey] at this
      simp only [List.map_cons, List.nodup_cons] at hn
      exact hn.1 this
    subst hab
    have ht : t1 = t2 :=
      sorted_perm_eq_of_nodup_keys g t1 t2 hp.cons_inv hs1.of_cons hs2.of_cons
        (by simp only [List.map_cons, List.nodup_cons] at hn; exact hn.2)
    rw [ht]

/- ### Supporting lemmas about `store` -/

lemma updAct_edges (g : NXGraph) (f : List Snapshot → List Snapshot) (n : ℕ) :
    (g.updAct f n).edges = g.edges := rfl

lemma storeStep_edges (mem : ℕ) (snap : Snapshot) (gi : NXGraph × List (ℕ × ℕ))
    (av : ℕ × ℕ) :
    (storeStep mem snap gi av).1.edges = gi.1.edges ++ [(mem, av.2, av.1)] := by
  unfold storeStep NXGraph.addEdge NXGraph.addNode
  by_cases hv : av.2 ∈ gi.1.nodes <;> simp [hv]

lemma foldl_storeStep_edges (mem : ℕ) (snap : Snapshot) :
    ∀ (attrs : List (ℕ × ℕ)) (gi : NXGraph × List (ℕ × ℕ)),
      (attrs.foldl (storeStep mem snap) gi).1.edges =
        gi.1.edges ++ attrs.map (fun av => (mem, av.2, av.1))
  | [], gi => by simp
  | av :: rest, gi => by
    rw [List.foldl_cons, foldl_storeStep_edges mem snap rest, storeStep_edges]
    simp

lemma storeStep_nodes_mono (mem : ℕ) (snap : Snapshot)
    (gi : NXGraph × List (ℕ × ℕ)) (av : ℕ × ℕ) (n : ℕ)
    (h : n ∈ gi.1.nodes) : n ∈ (storeStep mem snap gi av).1.nodes := by
  unfold storeStep NXGraph.addEdge NXGraph.addNode
  by_cases hv : av.2 ∈ gi.1.nodes <;> simp [hv, h]

lemma foldl_storeStep_nodes_mono (mem : ℕ) (snap : Snapshot) :
    ∀ (attrs : List (ℕ × ℕ)) (gi : NXGraph × List (ℕ × ℕ)) (n : ℕ),
      n ∈ gi.1.nodes → n ∈ (attrs.foldl (storeStep mem snap) gi).1.nodes
  | [], _, _, h => h
  | av :: rest, gi, n, h =>
    foldl_storeStep_nodes_mono mem snap rest _ n (storeStep_nodes_mono mem snap gi av n h)

lemma store_graph_edges (actFn : ActFn) (s : NetworkXKB) (mem : ℕ)
    (attrs : List (ℕ × ℕ)) (h : mem ∉ s.graph.nodes) :
    (NetworkXKB.store actFn s mem attrs).graph.edges =
      s.graph.edges ++ attrs.map (fun av => (mem, av.2, av.1)) := by
  unfold NetworkXKB.store
  simp only [if_neg h]
  rw [foldl_storeStep_edges]
  rfl

lemma store_mem_node (actFn : ActFn) (s : NetworkXKB) (mem : ℕ)
    (attrs : List (ℕ × ℕ)) (h : mem ∉ s.graph.nodes) :
    mem ∈ (NetworkXKB.store actFn s mem attrs).graph.nodes := by
  unfold NetworkXKB.store
  simp only [if_neg h]
  exact foldl_storeStep_nodes_mono mem _ attrs _ mem (by simp [NXGraph.addNode])

lemma storeStep_act_find (mem : ℕ) (snap : Snapshot)
    (gi : NXGraph × List (ℕ × ℕ)) (av : ℕ × ℕ) (n : ℕ)
    (h : (gi.1.act.find? (fun p => p.1 == n)).isSome) :
    (storeStep mem snap gi av).1.act.find? (fun p => p.1 == n) =
      gi.1.act.find? (fun p => p.1 == n) := by
  unfold storeStep NXGraph.addEdge NXGraph.addNode
  by_cases hv : av.2 ∈ gi.1.nodes
  · simp [hv]
  · simp only [hv, if_neg, ite_false]
    obtain ⟨x, hx⟩ := Option.isSome_iff_exists.mp h
    simp [List.find?_append, hx]

lemma foldl_storeStep_act_find (mem : ℕ) (snap : Snapshot) :
    ∀ (attrs : List (ℕ × ℕ)) (gi : NXGraph × List (ℕ × ℕ)) (n : ℕ),
      (gi.1.act.find? (fun p => p.1 == n)).isSome →
      (attrs.foldl (storeStep mem snap) gi).1.act.find? (fun p => p.1 == n) =
        gi.1.act.find? (fun p => p.1 == n)
  | [], _, _, _ => rfl
  | av :: rest, gi, n, h => by
    rw [List.foldl_cons,
      foldl_storeStep_act_find mem snap rest (storeStep mem snap gi av) n
        (by rw [storeStep_act_find mem snap gi av n h]; exact h),
      storeStep_act_find mem snap gi av n h]

/- ### Claim C1 -/

/-- C1: the claim says a candidate carrying a matching (attribute, value)
edge for every queried term is never excluded.  The code checks only the
key-`0` parallel edge: in `nxS2`, memory `100` carries the matching edge
`(100, 5)` labeled `1` (and is indexed under attribute `1`), yet
`query({1: 5})` computes an empty candidate set and returns `None`,
because the first-inserted `100 → 5` edge is labeled `0`. -/
theorem query_checks_only_first_parallel_edge :
    (100, 5, 1) ∈ nxS2.graph.edges ∧
    (1, 100) ∈ nxS2.inverted_index ∧
    (NetworkXKB.retrieve appendFn nxS2 100).1 = some [(0, 5), (1, 5)] ∧
    candList nxS2 [(1, 5)] = [] ∧
    candsOK nxS2 [(1, 5)] [] ∧
    (NetworkXKB.query appendFn nxS2 [(1, 5)] []).1 = none := by
  refine ⟨by decide, by decide, by decide, by decide, by decide, by decide⟩

/- ### Claim C2 -/

/-- C2 counterexample: value nodes `10` and `11` are created inside the same
`store` call and therefore carry identical activation histories; with a
(no-op) activation function that leaves histories unchanged, both survive
`query({7: 12})`, and the returned top match — and the whole ordered match
sequence — depends on the iteration order of the candidate set.  There is
no secondary tie-breaking key, so two runs of an identical call sequence
need not agree. -/
theorem query_tie_order_dependent :
    nxU3.graph.actHist 10 = nxU3.graph.actHist 11 ∧
    candsOK nxU3 [(7, 12)] [10, 11] ∧
    candsOK nxU3 [(7, 12)] [11, 10] ∧
    (NetworkXKB.query noopFn nxU3 [(7, 12)] [10, 11]).1 ≠
      (NetworkXKB.query noopFn nxU3 [(7, 12)] [11, 10]).1 ∧
    (NetworkXKB.query noopFn nxU3 [(7, 12)] [10, 11]).2.query_results ≠
      (NetworkXKB.query noopFn nxU3 [(7, 12)] [11, 10]).2.query_results := by
  refine ⟨by decide, by decide, by decide, by decide, by decide⟩

/-- C2 (amended): `query` sorts the matches in descending activation order
with a stable sort and no secondary key; the resulting ordered match
sequence is independent of the candidate-set iteration order — hence the
same on every run of an identical store/query sequence — whenever the
candidates' activation histories are pairwise distinct. -/
theorem query_deterministic_of_nodup_activations (actFn : ActFn)
    (s : NetworkXKB) (attrs : List (ℕ × ℕ)) (o1 o2 : List ℕ)
    (hattrs : attrs ≠ [])
    (h1 : candsOK s attrs o1) (h2 : candsOK s attrs o2)
    (hn : ((candList s attrs).map s.graph.actHist).Nodup) :
    NetworkXKB.query actFn s attrs o1 = NetworkXKB.query actFn s attrs o2 := by
  have hperm : o1.Perm o2 := h1.trans h2.symm
  by_cases hemp : o1 = []
  · have h2e : o2 = [] := (hemp ▸ hperm).symm.eq_nil
    rw [hemp, h2e]
  · have hemp2 : o2 ≠ [] := by
      intro h
      exact hemp ((h ▸ hperm).eq_nil)
    have hS : List.insertionSort (rankRel s.graph) o1 =
        List.insertionSort (rankRel s.graph) o2 := by
      apply sorted_perm_eq_of_nodup_keys s.graph
      · exact (List.perm_insertionSort _ o1).trans
          (hperm.trans (List.perm_insertionSort _ o2).symm)
      · exact List.sorted_insertionSort _ o1
      · exact List.sorted_insertionSort _ o2
      · have hpm : (List.insertionSort (rankRel s.graph) o1).Perm (candList s attrs) :=
          (List.perm_insertionSort _ o1).trans h1
        exact ((hpm.map s.graph.actHist).nodup_iff).mpr hn
    have e1 : o1.isEmpty = false := List.isEmpty_eq_false.mpr hemp
    have e2 : o2.isEmpty = false := List.isEmpty_eq_false.mpr hemp2
    simp only [NetworkXKB.query, e1, e2, Bool.false_eq_true, if_false]
    rw [hS]

/-- C2 witness: on `nxT2` the two candidates `1` and `2` have distinct
activation histories, so the query result does not depend on the
enumeration order of the candidate set. -/
theorem query_deterministic_witness :
    (([(0, 7)] : List (ℕ × ℕ)) ≠ [] ∧
     candsOK nxT2 [(0, 7)] [1, 2] ∧ candsOK nxT2 [(0, 7)] [2, 1] ∧
     ((candList nxT2 [(0, 7)]).map nxT2.graph.actHist).Nodup) ∧
    NetworkXKB.query appendFn nxT2 [(0, 7)] [1, 2] =
      NetworkXKB.query appendFn nxT2 [(0, 7)] [2, 1] :=
  ⟨⟨by decide, by decide, by decide, by decide⟩,
   query_deterministic_of_nodup_activations appendFn nxT2 [(0, 7)] [1, 2] [2, 1]
     (by decide) (by decide) (by decide) (by decide)⟩

/- ### Claim C3 -/

/-- C3 counterexample: after `query({0: 7})` on `nxT2` the cursor holds the
matches `[2, 1]` with a next result available; a subsequent `retrieve` —
hit (`1`) or miss (`99`) — leaves the cursor exactly as it was, so
`has_next_result` still reports the adjacent result of the pre-retrieve
query, contradicting the claim that retrieve resets the cursor. -/
theorem retrieve_keeps_pre_query_cursor :
    nxT3.query_results = some [2, 1] ∧
    NetworkXKB.has_next_result nxT3 = true ∧
    (NetworkXKB.retrieve appendFn nxT3 1).1.isSome = true ∧
    (NetworkXKB.retrieve appendFn nxT3 1).2.query_results = some [2, 1] ∧
    NetworkXKB.has_next_result (NetworkXKB.retrieve appendFn nxT3 1).2 = true ∧
    (NetworkXKB.retrieve appendFn nxT3 99).1 = none ∧
    NetworkXKB.has_next_result (NetworkXKB.retrieve appendFn nxT3 99).2 = true := by
  refine ⟨by decide, by decide, by decide, by decide, by decide, by decide, by decide⟩

/-- C3 (amended): the graph store's `retrieve` leaves the query cursor
(`query_results`, `result_index`, and hence `has_prev_result` /
`has_next_result`) completely untouched, on hits and on misses alike.
(The naive store's `retrieve` is unsupported and raises; only the
remote-backed `SparqlKB.retrieve` resets its cursor state.) -/
theorem retrieve_leaves_cursor_untouched (actFn : ActFn) (s : NetworkXKB)
    (mem : ℕ) :
    (NetworkXKB.retrieve actFn s mem).2.query_results = s.query_results ∧
    (NetworkXKB.retrieve actFn s mem).2.result_index = s.result_index ∧
    NetworkXKB.has_prev_result (NetworkXKB.retrieve actFn s mem).2 =
      NetworkXKB.has_prev_result s ∧
    NetworkXKB.has_next_result (NetworkXKB.retrieve actFn s mem).2 =
      NetworkXKB.has_next_result s := by
  have hq : (NetworkXKB.retrieve actFn s mem).2.query_results = s.query_results := by
    unfold NetworkXKB.retrieve
    by_cases h : mem ∈ s.graph.nodes <;> simp [h]
  have hi : (NetworkXKB.retrieve actFn s mem).2.result_index = s.result_index := by
    unfold NetworkXKB.retrieve
    by_cases h : mem ∈ s.graph.nodes <;> simp [h]
  refine ⟨hq, hi, ?_, ?_⟩
  · unfold NetworkXKB.has_prev_result
    rw [hq, hi]
  · unfold NetworkXKB.has_next_result
    rw [hq, hi]

/- ### Claim C6 -/

/-- A controller state with a non-empty wrapped observation (the env state
doubles as the observation), junk in the perceptual buffer, and a non-zero
internal-action counter. -/
def ctrlC : MemoryArch (List (ℕ × ℕ)) Unit := ⟨[(0, 5)], ⟨[(9, 9)], [], [], []⟩, 3, ()⟩

/-- C6 counterexample: `reset` neither zeroes the internal-action counter
nor resynchronizes the perceptual buffer from the wrapped environment's
observation (here the observation function is the identity on the
environment state) — it only clears the buffers. -/
theorem reset_does_not_resync_or_zero_counter :
    (MemoryArch.reset id ctrlC).internal_action_count = 3 ∧
    (MemoryArch.reset id ctrlC).internal_action_count ≠ 0 ∧
    (MemoryArch.reset id ctrlC).bufs.perceptual ≠
      id (MemoryArch.reset id ctrlC).env := by
  refine ⟨rfl, by decide, by decide⟩

/-- C6 (amended): `start_new_episode` clears all buffers, resynchronizes
the perceptual buffer from the wrapped environment's observation and zeroes
the internal-action counter; `reset` only clears all buffers (leaving the
perceptual buffer empty, not resynchronized) and preserves the counter.
Neither touches the knowledge store. -/
theorem lifecycle_effects {E K : Type} (envReset envStart : E → E)
    (obs : E → List (ℕ × ℕ)) (c : MemoryArch E K) :
    (MemoryArch.reset envReset c).bufs = Bufs.empty ∧
    (MemoryArch.reset envReset c).internal_action_count = c.internal_action_count ∧
    (MemoryArch.reset envReset c).knowledge_store = c.knowledge_store ∧
    (MemoryArch.reset envReset c).env = envReset c.env ∧
    (MemoryArch.start_new_episode envStart obs c).bufs.perceptual =
      obs (envStart c.env) ∧
    (MemoryArch.start_new_episode envStart obs c).bufs.query = [] ∧
    (MemoryArch.start_new_episode envStart obs c).bufs.retrieval = [] ∧
    (MemoryArch.start_new_episode envStart obs c).bufs.scratch = [] ∧
    (MemoryArch.start_new_episode envStart obs c).internal_action_count = 0 ∧
    (MemoryArch.start_new_episode envStart obs c).knowledge_store =
      c.knowledge_store :=
  ⟨rfl, rfl, rfl, rfl, rfl, rfl, rfl, rfl, rfl, rfl⟩

/- ### Claim C9 -/

/-- C9: `NaiveDictKB.store` ignores its `mem_id` argument entirely — for
any `memId`, the poststate is exactly the poststate of storing with
`None`: the record appended to `knowledge` consists only of the attribute
pairs (no identifier), and the cursor state is untouched. -/
theorem naive_store_ignores_mem_id (memId : Option ℕ) (attrs : List (ℕ × ℕ))
    (s : NaiveDictKB) :
    NaiveDictKB.store s memId attrs = NaiveDictKB.store s none attrs ∧
    (NaiveDictKB.store s memId attrs).knowledge = s.knowledge ++ [mkRec attrs] ∧
    (NaiveDictKB.store s memId attrs).query_index = s.query_index ∧
    (NaiveDictKB.store s memId attrs).query_matches = s.query_matches :=
  ⟨rfl, rfl, rfl, rfl⟩

/- ### Claim C10 -/

/-- C10: `clear` wipes the graph, the inverted index and the cursor but
leaves the logical clock unchanged; a `store` issued after `clear` stamps
its activation snapshot with the pre-clear time, so a cleared store is
distinguishable from a fresh one (concretely: clearing after one store and
then storing `1` yields activation history `[(1, 1)]`, while a fresh store
yields `[(0, 1)]`). -/
theorem clear_preserves_clock :
    (∀ s : NetworkXKB,
      s.clear.time = s.time ∧ s.clear.graph = NXGraph.empty ∧
      s.clear.inverted_index = [] ∧ s.clear.query_results = none ∧
      s.clear.result_index = none) ∧
    (∀ (actFn : ActFn) (s : NetworkXKB) (mem : ℕ) (attrs : List (ℕ × ℕ)),
      (NetworkXKB.store actFn s.clear mem attrs).graph.actHist mem =
        [(s.time, getActivation s.time)]) ∧
    NetworkXKB.store noopFn (NetworkXKB.store noopFn NetworkXKB.init 0 []).clear 1 [] ≠
      NetworkXKB.store noopFn NetworkXKB.init 1 [] := by
  refine ⟨fun s => ⟨rfl, rfl, rfl, rfl, rfl⟩, ?_, by decide⟩
  intro actFn s mem attrs
  unfold NetworkXKB.store
  have hmem : mem ∉ NXGraph.empty.nodes := by simp [NXGraph.empty]
  simp only [NetworkXKB.clear, if_neg hmem]
  unfold NXGraph.actHist
  rw [foldl_storeStep_act_find _ _ attrs _ mem (by simp [NXGraph.addNode, NXGraph.empty])]
  simp [NXGraph.addNode, NXGraph.empty]

/- ### Claim C5 -/

lemma copyOK_iff (ignore : List BufName) (bs : Bufs) (src dst : BufName) (a : ℕ) :
    copyOK ignore bs src dst a = true ↔
      (src ≠ dst ∧ dst ∉ ignore ∧ writable dst = true ∧
       ¬(src = BufName.perceptual ∧ dst = BufName.scratch) ∧
       lookupRec (bs.get src) a ≠ lookupRec (bs.get dst) a) := by
  simp only [copyOK, Bool.and_eq_true, decide_eq_true_eq, Bool.not_eq_true',
    Bool.and_eq_false_iff, decide_eq_false_iff_not, bne_iff_ne, ne_eq]
  tauto

lemma lookupRec_isSome_of_key_mem {r : Rec} {a : ℕ}
    (h : ∃ p ∈ r, p.1 = a) : ∃ v, lookupRec r a = some v := by
  obtain ⟨p, hp, he⟩ := h
  have hs : (r.find? (fun q => q.1 == a)).isSome :=
    List.find?_isSome.mpr ⟨p, hp, by simp [he]⟩
  obtain ⟨q, hq⟩ := Option.isSome_iff_exists.mp hs
  exact ⟨q.2, by unfold lookupRec; rw [hq]; rfl⟩

/-- C5: every generated copy action has distinct source and destination, a
writable destination, is never the (perceptual, scratch) pairing, and is
suppressed when the destination already holds a value equal to the
source's value for that attribute — over every buffer state (hence every
reachable controller state) and every `buf_ignore` configuration. -/
theorem copy_actions_capability_invariant (ignore : List BufName) (bs : Bufs)
    (a : CopyAction) (ha : a ∈ generateCopyActions ignore bs) :
    a.src_buf ≠ a.dst_buf ∧ writable a.dst_buf = true ∧
    ¬(a.src_buf = BufName.perceptual ∧ a.dst_buf = BufName.scratch) ∧
    ∃ v, lookupRec (bs.get a.src_buf) a.attr = some v ∧
         lookupRec (bs.get a.dst_buf) a.attr ≠ some v := by
  simp only [generateCopyActions, List.mem_flatMap, List.mem_filter,
    List.mem_map] at ha
  obtain ⟨src, ⟨_, _⟩, attr, hattr, dst, ⟨_, hdst⟩, rfl⟩ := ha
  rw [copyOK_iff] at hdst
  obtain ⟨hne, _, hw, hps, hval⟩ := hdst
  obtain ⟨v, hv⟩ := lookupRec_isSome_of_key_mem hattr
  exact ⟨hne, hw, hps, v, hv, fun hcontra => hval (hv.trans hcontra.symm)⟩

/-- A buffer state generating at least one copy action (scratch holds
attribute `1` with value `2`; the query buffer does not). -/
def bsW : Bufs := ⟨[], [], [], [(1, 2)]⟩

/-- C5 witness: the action copying attribute `1` from scratch to query is
generated on `bsW`, and the invariant holds of it. -/
theorem copy_actions_capability_invariant_witness :
    (⟨BufName.scratch, 1, BufName.query⟩ : CopyAction) ∈
        generateCopyActions [] bsW ∧
      (BufName.scratch ≠ BufName.query ∧ writable BufName.query = true ∧
       ¬(BufName.scratch = BufName.perceptual ∧ BufName.query = BufName.scratch) ∧
       ∃ v, lookupRec (bsW.get BufName.scratch) 1 = some v ∧
            lookupRec (bsW.get BufName.query) 1 ≠ some v) :=
  ⟨by decide,
   copy_actions_capability_invariant [] bsW ⟨BufName.scratch, 1, BufName.query⟩
     (by decide)⟩

/- ### Claim C7 -/

lemma get?_indexOf_of_mem {α : Type} [BEq α] [LawfulBEq α] {l : List α} {a : α}
    (h : a ∈ l) : l.get? (l.indexOf a) = some a := by
  induction l with
  | nil => cases h
  | cons x xs ih =>
    rw [List.indexOf_cons]
    by_cases hx : (x == a) = true
    · have hxa : x = a := eq_of_beq hx
      subst hxa
      simp [hx]
    · have hmem : a ∈ xs := by
        rcases List.mem_cons.mp h with h' | h'
        · exact absurd (h' ▸ beq_self_eq_true a) (by simpa [h'] using hx)
        · exact h'
      simp only [hx, cond_false]
      rw [List.get?_cons_succ]
      exact ih hmem

/-- C7: on a naive-store query with a non-empty match set, if the record
currently selected by the cursor still occurs (by record equality) among
the newly sorted matches, the cursor re-centers on its first occurrence
and the query returns that same record; otherwise — including when no
previous selection exists or the old index is out of range — the cursor
resets to index `0` and the query returns the head of the canonical sorted
order. -/
theorem naive_query_cursor_stability (s : NaiveDictKB) (attrs : List (ℕ × ℕ))
    (hne : s.knowledge.filter (recMatch attrs) ≠ []) :
    (∀ i r, s.query_index = some i → s.query_matches.get? i = some r →
      r ∈ List.insertionSort recRel (s.knowledge.filter (recMatch attrs)) →
      (NaiveDictKB.query s attrs).1 = some r ∧
      (NaiveDictKB.query s attrs).2.query_index =
        some ((List.insertionSort recRel (s.knowledge.filter (recMatch attrs))).indexOf r) ∧
      (NaiveDictKB.query s attrs).2.query_matches =
        List.insertionSort recRel (s.knowledge.filter (recMatch attrs))) ∧
    ((∀ i, s.query_index = some i → ∀ r, s.query_matches.get? i = some r →
        r ∉ List.insertionSort recRel (s.knowledge.filter (recMatch attrs))) →
      (NaiveDictKB.query s attrs).1 =
        (List.insertionSort recRel (s.knowledge.filter (recMatch attrs))).get? 0 ∧
      (NaiveDictKB.query s attrs).2.query_index = some 0) := by
  have hne' : (s.knowledge.filter (recMatch attrs)).isEmpty = false :=
    List.isEmpty_eq_false.mpr hne
  constructor
  · intro i r hqi hget hmem
    refine ⟨?_, ?_, ?_⟩ <;>
      simp only [NaiveDictKB.query, hne', Bool.false_eq_true, if_false, hqi, hget,
        hmem, ite_true, if_pos] <;>
      first
      | rfl
      | exact get?_indexOf_of_mem hmem
  · intro hnot
    cases hqi : s.query_index with
    | none =>
      refine ⟨?_, ?_⟩ <;>
        simp only [NaiveDictKB.query, hne', Bool.false_eq_true, if_false, hqi] <;> rfl
    | some i =>
      cases hget : s.query_matches.get? i with
      | none =>
        refine ⟨?_, ?_⟩ <;>
          simp only [NaiveDictKB.query, hne', Bool.false_eq_true, if_false, hqi,
            hget] <;> rfl
      | some r =>
        have hmem := hnot i hqi r hget
        refine ⟨?_, ?_⟩ <;>
          simp only [NaiveDictKB.query, hne', Bool.false_eq_true, if_false, hqi,
            hget, hmem, ite_false, if_neg] <;> rfl

/-- C7 witness: `ndS1`'s cursor selects `recB`; after `query({0: 1})` both
`recA` and `recB` match, the sorted order is `[recA, recB]`, and the
cursor re-centers on `recB` at index `1` (not index `0`), returning it. -/
theorem naive_query_cursor_stability_witness :
    (ndS1.knowledge.filter (recMatch [(0, 1)]) ≠ [] ∧
     ndS1.query_index = some 0 ∧ ndS1.query_matches.get? 0 = some recB ∧
     recB ∈ List.insertionSort recRel (ndS1.knowledge.filter (recMatch [(0, 1)]))) ∧
    ((NaiveDictKB.query ndS1 [(0, 1)]).1 = some recB ∧
     (NaiveDictKB.query ndS1 [(0, 1)]).2.query_index =
       some ((List.insertionSort recRel
         (ndS1.knowledge.filter (recMatch [(0, 1)]))).indexOf recB) ∧
     (NaiveDictKB.query ndS1 [(0, 1)]).2.query_matches =
       List.insertionSort recRel (ndS1.knowledge.filter (recMatch [(0, 1)]))) :=
  ⟨⟨by decide, by decide, by decide, by decide⟩,
   (naive_query_cursor_stability ndS1 [(0, 1)] (by decide)).1 0 recB
     (by decide) (by decide) (by decide)⟩

/- ### Claim C8 -/

lemma store_outPairs (actFn : ActFn) (s : NetworkXKB) (mem : ℕ)
    (attrs : List (ℕ × ℕ)) (f : List Snapshot → List Snapshot)
    (hfresh : mem ∉ s.graph.nodes)
    (hnoedge : ∀ e ∈ s.graph.edges, e.1 ≠ mem) :
    ((NetworkXKB.store actFn s mem attrs).graph.updAct f mem).outPairs mem =
      attrs := by
  unfold NXGraph.outPairs
  rw [updAct_edges, store_graph_edges actFn s mem attrs hfresh, List.filter_append]
  have e1 : s.graph.edges.filter (fun e => e.1 == mem) = [] :=
    List.filter_eq_nil_iff.mpr (fun e he => by simp [hnoedge e he])
  have e2 : (attrs.map (fun av => (mem, av.2, av.1))).filter (fun e => e.1 == mem) =
      attrs.map (fun av => (mem, av.2, av.1)) :=
    List.filter_eq_self.mpr (fun e he => by
      obtain ⟨av, _, rfl⟩ := List.mem_map.mp he
      simp)
  rw [e1, e2, List.nil_append, List.map_map]
  have hmap : ∀ l : List (ℕ × ℕ),
      List.map ((fun e : ℕ × ℕ × ℕ => (e.2.2, e.2.1)) ∘
        fun av : ℕ × ℕ => (mem, av.2, av.1)) l = l := by
    intro l
    induction l with
    | nil => rfl
    | cons p t ih => simp [ih]
  exact hmap attrs

/-- C8: storing a fresh memory identifier with an attribute mapping and
retrieving it immediately materializes a record whose (attribute, value)
pairs are exactly the stored ones — nothing missing, nothing extra (the
record is the canonical key-sorted arrangement of `attrs`, a permutation
of it). -/
theorem store_retrieve_roundtrip (actFn : ActFn) (s : NetworkXKB) (mem : ℕ)
    (attrs : List (ℕ × ℕ)) (hkeys : (attrs.map Prod.fst).Nodup)
    (hfresh : mem ∉ s.graph.nodes)
    (hnoedge : ∀ e ∈ s.graph.edges, e.1 ≠ mem) :
    (NetworkXKB.retrieve actFn (NetworkXKB.store actFn s mem attrs) mem).1 =
      some (mkRec attrs) ∧ (mkRec attrs).Perm attrs := by
  constructor
  · have hm := store_mem_node actFn s mem attrs hfresh
    have hout := store_outPairs actFn s mem attrs
      (fun h => actFn h ((NetworkXKB.store actFn s mem attrs).time + 1,
        getActivation ((NetworkXKB.store actFn s mem attrs).time + 1)))
      hfresh hnoedge
    unfold NetworkXKB.retrieve
    rw [if_pos hm]
    simp only [hout]
  · exact List.perm_insertionSort _ attrs

/-- C8 witness: round trip on a fresh store with identifier `1` and
attributes `{0: 5, 1: 6}`. -/
theorem store_retrieve_roundtrip_witness :
    (([(0, 5), (1, 6)] : List (ℕ × ℕ)).map Prod.fst).Nodup ∧
    (1 : ℕ) ∉ NetworkXKB.init.graph.nodes ∧
    ((NetworkXKB.retrieve appendFn
        (NetworkXKB.store appendFn NetworkXKB.init 1 [(0, 5), (1, 6)]) 1).1 =
      some (mkRec [(0, 5), (1, 6)]) ∧
     (mkRec [(0, 5), (1, 6)]).Perm [(0, 5), (1, 6)]) :=
  ⟨by decide, by decide,
   store_retrieve_roundtrip appendFn NetworkXKB.init 1 [(0, 5), (1, 6)]
     (by decide) (by decide) (by decide)⟩

/- ### Claim C4 -/

lemma ndNext_matches (s : NaiveDictKB) :
    (NaiveDictKB.next_result s).2.query_matches = s.query_matches := by
  cases h : s.query_index <;> simp [NaiveDictKB.next_result, h]

lemma ndNextIter_matches (s : NaiveDictKB) :
    ∀ k, (ndNextIter s k).query_matches = s.query_matches
  | 0 => rfl
  | k + 1 => by
    rw [ndNextIter, ndNext_matches]
    exact ndNextIter_matches s k

lemma ndNextIter_index (s : NaiveDictKB) (i : ℕ) (h : s.query_index = some i)
    (hi : i < s.query_matches.length) :
    ∀ k, (ndNextIter s k).query_index = some ((i + k) % s.query_matches.length)
  | 0 => by
    rw [ndNextIter, h]
    simp [Nat.mod_eq_of_lt hi]
  | k + 1 => by
    rw [ndNextIter]
    have hk := ndNextIter_index s i h hi k
    unfold NaiveDictKB.next_result
    rw [hk, ndNextIter_matches s k]
    simp only
    have harith : i + k + 1 = i + (k + 1) := by omega
    rw [Nat.mod_add_mod, harith]

/-- C4 counterexample: on the naive store, after a successful query with
the cursor at index `0` (which, with a single match, is also the last
index), `has_prev_result` and `has_next_result` are both `true`: the
backend satisfies neither "false exactly at index 0 (resp. the last
index)" nor the alternatively acceptable "constantly false" policy. -/
theorem naive_has_prev_result_constantly_true :
    ndS2.query_index = some 0 ∧ ndS2.query_matches.length = 1 ∧
    NaiveDictKB.has_prev_result ndS2 = true ∧
    NaiveDictKB.has_next_result ndS2 = true := by
  refine ⟨by decide, by decide, by decide, by decide⟩

/-- C4 (amended): graph store — after a query, `has_prev_result` is false
exactly at index `0` and `has_next_result` is false exactly at the last
index, and `next_result`/`prev_result`, invoked when the corresponding
flag is true, move the index by exactly one without leaving the cached
match list (no wraparound).  Naive store — `has_prev_result` and
`has_next_result` are constantly `true`, navigation wraps modulo the match
count, and repeated `next_result` calls traverse the sorted match list
cyclically: the k-th call returns the match at position `(i + k) mod n`,
so each match is visited exactly once before the traversal repeats with
period `n`, in ranking order. -/
theorem cursor_bounds_and_traversal :
    (∀ (s : NetworkXKB) (l : List ℕ) (i : ℕ),
      s.query_results = some l → s.result_index = some i →
      ((NetworkXKB.has_prev_result s = false ↔ i = 0) ∧
       (NetworkXKB.has_next_result s = false ↔ l.length ≤ i + 1))) ∧
    (∀ (actFn : ActFn) (s : NetworkXKB) (l : List ℕ) (i : ℕ),
      s.query_results = some l → s.result_index = some i →
      NetworkXKB.has_next_result s = true →
      ((NetworkXKB.next_result actFn s).2.query_results = some l ∧
       (NetworkXKB.next_result actFn s).2.result_index = some (i + 1) ∧
       i + 1 < l.length ∧ (NetworkXKB.next_result actFn s).1.isSome = true)) ∧
    (∀ (actFn : ActFn) (s : NetworkXKB) (l : List ℕ) (i : ℕ),
      s.query_results = some l → s.result_index = some i → i < l.length →
      NetworkXKB.has_prev_result s = true →
      ((NetworkXKB.prev_result actFn s).2.query_results = some l ∧
       (NetworkXKB.prev_result actFn s).2.result_index = some (i - 1) ∧
       0 < i ∧ (NetworkXKB.prev_result actFn s).1.isSome = true)) ∧
    (∀ s : NaiveDictKB,
      NaiveDictKB.has_prev_result s = true ∧
      NaiveDictKB.has_next_result s = true) ∧
    (∀ (s : NaiveDictKB) (i : ℕ), s.query_index = some i →
      i < s.query_matches.length →
      ∀ k : ℕ,
        (ndNextIter s (k + 1)).query_index =
          some ((i + k + 1) % s.query_matches.length) ∧
        (NaiveDictKB.next_result (ndNextIter s k)).1 =
          s.query_matches.get? ((i + k + 1) % s.query_matches.length) ∧
        (ndNextIter s (k + 1 + s.query_matches.length)).query_index =
          (ndNextIter s (k + 1)).query_index) ∧
    (∀ (s : NaiveDictKB) (i : ℕ), s.query_index = some i →
      i < s.query_matches.length →
      ∀ k1 k2 : ℕ, k1 < s.query_matches.length → k2 < s.query_matches.length →
        (ndNextIter s (k1 + 1)).query_index = (ndNextIter s (k2 + 1)).query_index →
        k1 = k2) := by
  refine ⟨?_, ?_, ?_, ?_, ?_, ?_⟩
  · intro s l i hq hi
    unfold NetworkXKB.has_prev_result NetworkXKB.has_next_result
    rw [hq, hi]
    constructor
    · simp
    · simp [Nat.not_lt]
  · intro actFn s l i hq hi hnext
    unfold NetworkXKB.has_next_result at hnext
    rw [hq, hi] at hnext
    have hlt : i + 1 < l.length := by simpa using hnext
    have hnode := List.get?_eq_get hlt
    unfold NetworkXKB.next_result
    rw [hq, hi]
    simp only [hnode]
    exact ⟨by trivial, by trivial, hlt, by trivial⟩
  · intro actFn s l i hq hi hlen hprev
    unfold NetworkXKB.has_prev_result at hprev
    rw [hq, hi] at hprev
    have hpos : 0 < i := by simpa using hprev
    have hlt : i - 1 < l.length := lt_of_le_of_lt (Nat.sub_le i 1) hlen
    have hnode := List.get?_eq_get hlt
    unfold NetworkXKB.prev_result
    rw [hq, hi]
    simp only [hnode]
    exact ⟨by trivial, by trivial, hpos, by trivial⟩
  · intro s
    exact ⟨rfl, rfl⟩
  · intro s i hqi hi k
    refine ⟨?_, ?_, ?_⟩
    · have := ndNextIter_index s i hqi hi (k + 1)
      rwa [show i + (k + 1) = i + k + 1 by omega] at this
    · have hk := ndNextIter_index s i hqi hi k
      unfold NaiveDictKB.next_result
      rw [hk, ndNextIter_matches s k]
      simp only
      rw [Nat.mod_add_mod]
    · have h1 := ndNextIter_index s i hqi hi (k + 1 + s.query_matches.length)
      have h2 := ndNextIter_index s i hqi hi (k + 1)
      rw [h1, h2]
      congr 1
      rw [show i + (k + 1 + s.query_matches.length) =
        i + (k + 1) + s.query_matches.length by omega]
      exact Nat.add_mod_right _ _
  · intro s i hqi hi k1 k2 hk1 hk2 heq
    rw [ndNextIter_index s i hqi hi (k1 + 1),
      ndNextIter_index s i hqi hi (k2 + 1)] at heq
    have hmod : (i + 1 + k1) % s.query_matches.length =
        (i + 1 + k2) % s.query_matches.length := by
      have := Option.some.inj heq
      rwa [show i + (k1 + 1) = i + 1 + k1 by omega,
        show i + (k2 + 1) = i + 1 + k2 by omega] at this
    have hcong : k1 ≡ k2 [MOD s.query_matches.length] :=
      Nat.ModEq.add_left_cancel' (i + 1) hmod
    have : k1 % s.query_matches.length = k2 % s.query_matches.length := hcong
    rwa [Nat.mod_eq_of_lt hk1, Nat.mod_eq_of_lt hk2] at this

/-- The graph-store state one `next_result` after `nxT3`: cursor at index
`1` of the cached matches `[2, 1]`. -/
def nxT4 : NetworkXKB := (NetworkXKB.next_result appendFn nxT3).2

/-- C4 witness: the amended cursor properties instantiated on the concrete
graph cursor `nxT3`/`nxT4` (matches `[2, 1]`) and the concrete naive
stores `ndS2` and `ndS3`. -/
theorem cursor_bounds_and_traversal_witness :
    (nxT3.query_results = some [2, 1] ∧ nxT3.result_index = some 0 ∧
     NetworkXKB.has_next_result nxT3 = true ∧
     nxT4.query_results = some [2, 1] ∧ nxT4.result_index = some 1 ∧
     (1 : ℕ) < ([2, 1] : List ℕ).length ∧
     NetworkXKB.has_prev_result nxT4 = true ∧
     ndS3.query_index = some 1 ∧ 1 < ndS3.query_matches.length ∧
     (0 : ℕ) < ndS3.query_matches.length ∧
     (2 : ℕ) < ndS3.query_matches.length) ∧
    ((NetworkXKB.has_prev_result nxT3 = false ↔ (0 : ℕ) = 0) ∧
     (NetworkXKB.has_next_result nxT3 = false ↔ ([2, 1] : List ℕ).length ≤ 0 + 1)) ∧
    ((NetworkXKB.next_result appendFn nxT3).2.query_results = some [2, 1] ∧
     (NetworkXKB.next_result appendFn nxT3).2.result_index = some (0 + 1) ∧
     0 + 1 < ([2, 1] : List ℕ).length ∧
     (NetworkXKB.next_result appendFn nxT3).1.isSome = true) ∧
    ((NetworkXKB.prev_result appendFn nxT4).2.query_results = some [2, 1] ∧
     (NetworkXKB.prev_result appendFn nxT4).2.result_index = some (1 - 1) ∧
     (0 : ℕ) < 1 ∧ (NetworkXKB.prev_result appendFn nxT4).1.isSome = true) ∧
    (NaiveDictKB.has_prev_result ndS2 = true ∧
     NaiveDictKB.has_next_result ndS2 = true) ∧
    ((ndNextIter ndS3 (0 + 1)).query_index =
       some ((1 + 0 + 1) % ndS3.query_matches.length) ∧
     (NaiveDictKB.next_result (ndNextIter ndS3 0)).1 =
       ndS3.query_matches.get? ((1 + 0 + 1) % ndS3.query_matches.length) ∧
     (ndNextIter ndS3 (0 + 1 + ndS3.query_matches.length)).query_index =
       (ndNextIter ndS3 (0 + 1)).query_index) ∧
    ((ndNextIter ndS3 (0 + 1)).query_index =
        (ndNextIter ndS3 (2 + 1)).query_index → (0 : ℕ) = 2) :=
  ⟨⟨by decide, by decide, by decide, by decide, by decide, by decide, by decide,
    by decide, by decide, by decide, by decide⟩,
   cursor_bounds_and_traversal.1 nxT3 [2, 1] 0 (by decide) (by decide),
   cursor_bounds_and_traversal.2.1 appendFn nxT3 [2, 1] 0 (by decide) (by decide)
     (by decide),
   cursor_bounds_and_traversal.2.2.1 appendFn nxT4 [2, 1] 1 (by decide) (by decide)
     (by decide) (by decide),
   cursor_bounds_and_traversal.2.2.2.1 ndS2,
   cursor_bounds_and_traversal.2.2.2.2.1 ndS3 1 (by decide) (by decide) 0,
   fun h => cursor_bounds_and_traversal.2.2.2.2.2 ndS3 1 (by decide) (by decide)
     0 2 (by decide) (by decide) h⟩
